import Mathlib

/-!
Verification development for the AI Samarth CSV completion-report engine
(`report_code.py`).  The Python code is shallowly embedded: strings are
`List Char`, CSV rows are `List (List Char)`, the per-file statistics
dictionary is the `Summary` structure, and Python's `None` results become
`Option`.  Every definition mirrors the corresponding Python function;
comments cite the source function names.
-/

/-! ## Python primitives used by the source -/

/-- Characters removed by Python's `str.strip()` (ASCII whitespace set). -/
def pyWS (c : Char) : Bool :=
  c = ' ' || c = '\t' || c = '\n' || c = '\r' || c = '\x0b' || c = '\x0c'

/-- `str.strip()`: drop leading and trailing whitespace. -/
def stripChars (l : List Char) : List Char :=
  ((l.dropWhile pyWS).reverse.dropWhile pyWS).reverse

/-- ASCII lower-casing of one character, as `str.lower()` does on ASCII text. -/
def pyToLower (c : Char) : Char :=
  if 'A' ≤ c && c ≤ 'Z' then Char.ofNat (c.toNat + 32) else c

/-- `str.lower()` on the ASCII fragment relevant to the source's marker tests. -/
def lowerChars (l : List Char) : List Char := l.map pyToLower

def isDigitChar (c : Char) : Bool := '0' ≤ c && c ≤ '9'

/-- `[a-zA-Z0-9]` of the chapter-identifier regex (ASCII, no `re.UNICODE` classes). -/
def isAlnumAscii (c : Char) : Bool :=
  ('a' ≤ c && c ≤ 'z') || ('A' ≤ c && c ≤ 'Z') || ('0' ≤ c && c ≤ '9')

/-- Numeric value of an ASCII digit string (most significant digit first). -/
def digitsVal (l : List Char) : Nat :=
  l.foldl (fun a c => a * 10 + (c.toNat - '0'.toNat)) 0

/-- The digit part accepted by Python's `int()`: nonempty digits, where single
underscores may separate digit groups (`"1_0"` is legal, `"1__0"`, `"_1"`,
`"1_"` are not). -/
def digitsCore : List Char → Bool
  | [] => false
  | [c] => isDigitChar c
  | c :: c2 :: rest =>
    isDigitChar c &&
      (if c2 = '_' then
        (match rest with
         | [] => false
         | _ :: _ => digitsCore rest)
      else digitsCore (c2 :: rest))

/-- Python `int(s)` on ASCII input: strips whitespace, allows one sign, then
digit groups.  Non-numeric input raises `ValueError` in Python; here: `none`. -/
def pyInt (l : List Char) : Option Int :=
  let t := stripChars l
  match t with
  | [] => none
  | c :: rest =>
    if c = '+' then
      (if digitsCore rest then some (digitsVal (rest.filter (fun x => x ≠ '_')) : Nat) else none)
    else if c = '-' then
      (if digitsCore rest then some (-(digitsVal (rest.filter (fun x => x ≠ '_')) : Nat)) else none)
    else
      (if digitsCore t then some (digitsVal (t.filter (fun x => x ≠ '_')) : Nat) else none)

/-- Python `s.split('/')`: split on every separator, keeping empty pieces
(`"".split('/') = ['']`, `"a//b".split('/') = ['a','','b']`). -/
def splitSlash : List Char → List (List Char)
  | [] => [[]]
  | c :: rest =>
    let r := splitSlash rest
    if c = '/' then [] :: r
    else
      match r with
      | h :: t => (c :: h) :: t
      | [] => [[c]]

/-! ## Calendar dates (`datetime.date`) -/

/-- A calendar date as produced by `datetime(...).date()`. -/
structure Date where
  year : Nat
  month : Nat
  day : Nat
deriving DecidableEq, Repr

/-- Gregorian leap-year rule used by `calendar.monthrange` and `datetime`. -/
def isLeapYear (y : Nat) : Bool :=
  y % 4 = 0 && (y % 100 ≠ 0 || y % 400 = 0)

/-- `calendar.monthrange(y, m)[1]`: number of days of month `m` of year `y`. -/
def daysInMonth (y : Nat) (m : Nat) : Nat :=
  if m = 2 then (if isLeapYear y then 29 else 28)
  else if m = 4 || m = 6 || m = 9 || m = 11 then 30
  else 31

/-- `datetime(year, month, day)`: succeeds exactly on valid proleptic Gregorian
dates with `1 ≤ year ≤ 9999`; otherwise Python raises `ValueError` (`none`). -/
def mkDate (y m d : Int) : Option Date :=
  if 1 ≤ y ∧ y ≤ 9999 ∧ 1 ≤ m ∧ m ≤ 12 ∧ 1 ≤ d ∧
      d ≤ (daysInMonth y.toNat m.toNat : Int) then
    some ⟨y.toNat, m.toNat, d.toNat⟩
  else none

/-- Python `date` comparison: lexicographic on (year, month, day). -/
def Date.le (a b : Date) : Bool :=
  decide (a.year < b.year ∨ (a.year = b.year ∧
    (a.month < b.month ∨ (a.month = b.month ∧ a.day ≤ b.day))))

/-! ## `parse_start_date` -/

/-- 2-digit-year expansion of the primary `DD/MM/YY` branch of
`parse_start_date`: `year < 50 → +2000, else +1900`. -/
def expand2 (y : Int) : Int := if y < 50 then y + 2000 else y + 1900

/-- 2-digit-year expansion used by `strptime`'s `%y` (`≤ 68 → +2000`). -/
def expandY2 (y : Nat) : Nat := if y ≤ 68 then y + 2000 else y + 1900

/-- `strptime` token `%d`, compiled to regex `(3[01]|[12]\d|0[1-9]|[1-9])`:
greedy two-digit day first, then one digit.  Returns value and rest. -/
def matchDay : List Char → Option (Nat × List Char)
  | c1 :: c2 :: rest =>
    if c1 = '3' && (c2 = '0' || c2 = '1') then some (30 + (c2.toNat - '0'.toNat), rest)
    else if (c1 = '1' || c1 = '2') && isDigitChar c2 then
      some ((c1.toNat - '0'.toNat) * 10 + (c2.toNat - '0'.toNat), rest)
    else if c1 = '0' && ('1' ≤ c2 && c2 ≤ '9') then some (c2.toNat - '0'.toNat, rest)
    else if '1' ≤ c1 && c1 ≤ '9' then some (c1.toNat - '0'.toNat, c2 :: rest)
    else none
  | [c1] => if '1' ≤ c1 && c1 ≤ '9' then some (c1.toNat - '0'.toNat, []) else none
  | [] => none

/-- `strptime` token `%m`, regex `(1[0-2]|0[1-9]|[1-9])`. -/
def matchMonth : List Char → Option (Nat × List Char)
  | c1 :: c2 :: rest =>
    if c1 = '1' && ('0' ≤ c2 && c2 ≤ '2') then some (10 + (c2.toNat - '0'.toNat), rest)
    else if c1 = '0' && ('1' ≤ c2 && c2 ≤ '9') then some (c2.toNat - '0'.toNat, rest)
    else if '1' ≤ c1 && c1 ≤ '9' then some (c1.toNat - '0'.toNat, c2 :: rest)
    else none
  | [c1] => if '1' ≤ c1 && c1 ≤ '9' then some (c1.toNat - '0'.toNat, []) else none
  | [] => none

/-- `strptime` token `%y`, regex `(\d\d)`: exactly two digits. -/
def matchY2 : List Char → Option (Nat × List Char)
  | c1 :: c2 :: rest =>
    if isDigitChar c1 && isDigitChar c2 then
      some ((c1.toNat - '0'.toNat) * 10 + (c2.toNat - '0'.toNat), rest)
    else none
  | _ => none

/-- `strptime` token `%Y`, regex `(\d\d\d\d)`: exactly four digits. -/
def matchY4 : List Char → Option (Nat × List Char)
  | c1 :: c2 :: c3 :: c4 :: rest =>
    if isDigitChar c1 && isDigitChar c2 && isDigitChar c3 && isDigitChar c4 then
      some (((((c1.toNat - '0'.toNat) * 10 + (c2.toNat - '0'.toNat)) * 10 +
        (c3.toNat - '0'.toNat)) * 10 + (c4.toNat - '0'.toNat)), rest)
    else none
  | _ => none

/-- A literal separator character of a `strptime` format string. -/
def matchLit (c : Char) : List Char → Option (List Char)
  | x :: rest => if x = c then some rest else none
  | [] => none

/-- `datetime.strptime(s, "%d<sep>%m<sep>%y").date()`: whole-string match, then
date construction (which may still raise, e.g. Feb 30). -/
def fmtDMY2 (sep : Char) (l : List Char) : Option Date :=
  (matchDay l).bind fun (d, r1) =>
  (matchLit sep r1).bind fun r2 =>
  (matchMonth r2).bind fun (m, r3) =>
  (matchLit sep r3).bind fun r4 =>
  (matchY2 r4).bind fun (y, r5) =>
  if r5.isEmpty then mkDate (expandY2 y) m d else none

/-- `datetime.strptime(s, "%Y<sep>%m<sep>%d").date()`. -/
def fmtYMD4 (sep : Char) (l : List Char) : Option Date :=
  (matchY4 l).bind fun (y, r1) =>
  (matchLit sep r1).bind fun r2 =>
  (matchMonth r2).bind fun (m, r3) =>
  (matchLit sep r3).bind fun r4 =>
  (matchDay r4).bind fun (d, r5) =>
  if r5.isEmpty then mkDate y m d else none

/-- `datetime.strptime(s, "%d<sep>%m<sep>%Y").date()`. -/
def fmtDMY4 (sep : Char) (l : List Char) : Option Date :=
  (matchDay l).bind fun (d, r1) =>
  (matchLit sep r1).bind fun r2 =>
  (matchMonth r2).bind fun (m, r3) =>
  (matchLit sep r3).bind fun r4 =>
  (matchY4 r4).bind fun (y, r5) =>
  if r5.isEmpty then mkDate y m d else none

/-- The fallback loop of `parse_start_date`: the formats
`['%d/%m/%y', '%Y/%m/%d', '%d/%m/%Y', '%Y-%m-%d', '%d-%m-%Y']` in order,
first success wins. -/
def tryFormats (ds : List Char) : Option Date :=
  (fmtDMY2 '/' ds).orElse fun _ =>
  (fmtYMD4 '/' ds).orElse fun _ =>
  (fmtDMY4 '/' ds).orElse fun _ =>
  (fmtYMD4 '-' ds).orElse fun _ =>
  (fmtDMY4 '-' ds)

/-- The primary branch of `parse_start_date`: split on `/`; with exactly three
parts choose `YYYY/MM/DD` when the first part has 4 characters, else
`DD/MM/YY` with `expand2`; pre-check `1 ≤ month ≤ 12` and `1 ≤ day ≤ 31`;
then `datetime(...)`.  Any `int()`/`datetime` failure or failed pre-check
falls through (`none`). -/
def primaryParse (ds : List Char) : Option Date :=
  match splitSlash ds with
  | [p0, p1, p2] =>
    let nums : Option (Int × Int × Int) :=
      if p0.length = 4 then
        match pyInt p0, pyInt p1, pyInt p2 with
        | some y, some m, some d => some (y, m, d)
        | _, _, _ => none
      else
        match pyInt p0, pyInt p1, pyInt p2 with
        | some d, some m, some y => some (expand2 y, m, d)
        | _, _, _ => none
    match nums with
    | some (y, m, d) =>
      if 1 ≤ m ∧ m ≤ 12 ∧ 1 ≤ d ∧ d ≤ 31 then mkDate y m d else none
    | none => none
  | _ => none

/-- `parse_start_date` of `report_code.py` on a character list: empty and
whitespace-only input → `None`; the sentinel `"not started"`
(case-insensitively, after stripping) → `None`; then the primary split-on-`/`
branch; then the `strptime` fallback formats; else `None`. -/
def parseStartDateChars (l : List Char) : Option Date :=
  if l.isEmpty || (stripChars l).isEmpty then none
  else
    let ds := stripChars l
    -- `date_str.lower() in ['not started', 'not started', '']`: the list
    -- repeats one sentinel, and `''` is unreachable after the strip check.
    if lowerChars ds = "not started".toList then none
    else
      match primaryParse ds with
      | some d => some d
      | none => tryFormats ds

/-- `parse_start_date` on a Python string. -/
def parse_start_date (s : String) : Option Date :=
  parseStartDateChars s.toList

example : parse_start_date "06/11/25" = some ⟨2025, 11, 6⟩ := rfl
example : parse_start_date "2025/11/06" = some ⟨2025, 11, 6⟩ := rfl
example : parse_start_date "31/02/25" = none := rfl
example : parse_start_date "Not Started" = none := rfl
example : parse_start_date "" = none := rfl
example : parse_start_date "2025-03-07" = some ⟨2025, 3, 7⟩ := rfl
example : parse_start_date "07-03-2025" = some ⟨2025, 3, 7⟩ := rfl

/-! ## `AISmarthProcessor` schema and row operations -/

/-- Column constants of the processor ("Hard Rules"). -/
def COL_R : Nat := 17
def COL_BR : Nat := 69
def COL_AP : Nat := 41
def COL_BU : Nat := 72
def COL_START_DATE : Nat := 12

/-- Python substring containment `needle in hay`. -/
def containsSub (needle : List Char) : List Char → Bool
  | [] => needle.isEmpty
  | c :: rest => needle.isPrefixOf (c :: rest) || containsSub needle rest

/-- `has_24char_id`: `re.search(r' - ([a-zA-Z0-9]{24})$', header)` — the header
ends with `" - "` followed by exactly 24 alphanumeric characters. -/
def has_24char_id (h : List Char) : Bool :=
  let r := h.reverse
  (r.take 24).length = 24 && (r.take 24).all isAlnumAscii &&
    ((r.drop 24).take 3 = [' ', '-', ' '])

/-- `identify_video_chapters`: indices in `range(COL_R, min(COL_BR+1, len(headers)))`
whose header has a 24-char id and does not contain `'quiz'` (case-insensitive). -/
def video_chapter_indices (headers : List (List Char)) : List Nat :=
  (List.range' COL_R (min (COL_BR + 1) headers.length - COL_R)).filter fun i =>
    has_24char_id (headers.getD i []) &&
      !(containsSub "quiz".toList (lowerChars (headers.getD i [])))

/-- `validate_all` (the header rules; `read_csv` file IO is outside the model):
pillar marker at `COL_R`, exactly 35 video chapters in `R..BR`, quiz markers at
`COL_AP` and `COL_BU`. -/
def validate_all (headers : List (List Char)) : Bool :=
  (decide (COL_R < headers.length) &&
    containsSub "pillar".toList (lowerChars (headers.getD COL_R []))) &&
  (video_chapter_indices headers).length = 35 &&
  (decide (COL_AP < headers.length) &&
    containsSub "quiz".toList (lowerChars (headers.getD COL_AP []))) &&
  (decide (COL_BU < headers.length) &&
    containsSub "quiz".toList (lowerChars (headers.getD COL_BU [])))

/-- `is_completed`: a cell marks completion iff it is nonempty and contains
`'completed'` case-insensitively. -/
def is_completed (cell : List Char) : Bool :=
  if cell.isEmpty then false
  else containsSub "completed".toList (lowerChars cell)

/-- One completed-cell test of `count_completions`: index in range and
completed.  Indices beyond the row's length count as not completed. -/
def cellCompleted (row : List (List Char)) (i : Nat) : Bool :=
  decide (i < row.length) && is_completed (row.getD i [])

/-- `count_completions`: `(videos_completed, quizzes_completed)` of one row. -/
def count_completions (vidIdx : List Nat) (row : List (List Char)) : Nat × Nat :=
  ((vidIdx.filter (cellCompleted row)).length,
   ([COL_AP, COL_BU].filter (cellCompleted row)).length)

/-- `has_started` (content-based): some video chapter or quiz cell completed. -/
def has_started (vidIdx : List Nat) (row : List (List Char)) : Bool :=
  vidIdx.any (cellCompleted row) || [COL_AP, COL_BU].any (cellCompleted row)

/-- `calculate_progress_percentage` with the completion thresholds
(35 videos + 2 quizzes → 100; ≥26 → 75; ≥18 → 50; ≥9 → 25; else 0). -/
def calculate_progress_percentage (videos_completed quizzes_completed : Nat) : Nat :=
  if 35 ≤ videos_completed ∧ 2 ≤ quizzes_completed then 100
  else if 26 ≤ videos_completed then 75
  else if 18 ≤ videos_completed then 50
  else if 9 ≤ videos_completed then 25
  else 0

/-! ## `process_and_add_columns` -/

/-- The start-date lookup of the processing loop:
`row[COL_START_DATE] if COL_START_DATE < len(row) else ""`, parsed. -/
def rowDate (row : List (List Char)) : Option Date :=
  parseStartDateChars (row.getD COL_START_DATE [])

/-- The date filter of the processing loop: active only when both bounds are
supplied; then rows without a parseable date or outside the inclusive range
are skipped (`continue`). -/
def keepRow (sdf edf : Option Date) (row : List (List Char)) : Bool :=
  match sdf, edf with
  | some s, some e =>
    match rowDate row with
    | none => false
    | some d => Date.le s d && Date.le d e
  | _, _ => true

/-- The per-row record appended to `user_data` (plus the two completion counts
used for the derived columns and tier statistics). -/
structure RowInfo where
  videos : Nat
  quizzes : Nat
  dateInfo : Option Date
  has_started : Bool
deriving DecidableEq, Repr

def rowInfo (vidIdx : List Nat) (row : List (List Char)) : RowInfo :=
  ⟨(count_completions vidIdx row).1, (count_completions vidIdx row).2,
    rowDate row, has_started vidIdx row⟩

def pctOf (u : RowInfo) : Nat := calculate_progress_percentage u.videos u.quizzes

/-- Chronological order on `(year, month)` bucket keys, as Python's `sorted`
orders the tuples. -/
def pairLe (p q : Nat × Nat) : Bool :=
  decide (p.1 < q.1 ∨ (p.1 = q.1 ∧ p.2 ≤ q.2))

/-- Insertion step of `sortPairs`. -/
def insertPair (p : Nat × Nat) : List (Nat × Nat) → List (Nat × Nat)
  | [] => [p]
  | q :: rest => if pairLe p q then p :: q :: rest else q :: insertPair p rest

/-- Python `sorted` on `(year, month)` pairs (insertion sort; order-isomorphic
to the library sort but kernel-computable). -/
def sortPairs (l : List (Nat × Nat)) : List (Nat × Nat) :=
  l.foldr insertPair []

/-- `month_end` of the cumulative rule: the last calendar day of a bucket
month, via `monthrange`. -/
def monthEnd (p : Nat × Nat) : Date := ⟨p.1, p.2, daysInMonth p.1 p.2⟩

/-- Cumulative bucket count over retained `(start_date, videos_completed)`
pairs: learners whose start date is on or before the bucket's month end.
(Both the aggregation loop and `normalize_month_columns` use this rule.) -/
def cumCount (qs : List (Date × Nat)) (p : Nat × Nat) : Nat :=
  (qs.filter fun u => Date.le u.1 (monthEnd p)).length

/-- Monthly bucket count: learners whose start date lies in exactly that
(year, month). -/
def monCount (qs : List (Date × Nat)) (p : Nat × Nat) : Nat :=
  (qs.filter fun u => decide (u.1.year = p.1) && decide (u.1.month = p.2)).length

/-- The `completion_stats` dictionary of one dataset.  Dict keys
`'25_percent'..'100_percent'` are fields `p25..p100`; the dynamic
`at_least_1_video_cumulative_YYYY_mon` / `..._monthly_YYYY_mon` keys are the
`cumulative` / `monthly` association lists keyed by `(year, month)` (the
month-name string encoding of keys is bijective for the generated keys, since
bucket months always come from parsed dates with `month ∈ 1..12`); the
retained `'_user_data_summary'` key is the `user_data_summary` field, `none`
when the key is absent. -/
structure Summary where
  total_users : Nat
  started : Nat
  started_with_completion : Nat
  only_1_video : Nat
  p25 : Nat
  p50 : Nat
  p75 : Nat
  p100 : Nat
  cumulative : List ((Nat × Nat) × Nat)
  monthly : List ((Nat × Nat) × Nat)
  user_data_summary : Option (List (Date × Nat))
deriving DecidableEq, Repr

instance : Inhabited Summary := ⟨⟨0, 0, 0, 0, 0, 0, 0, 0, [], [], none⟩⟩

/-- Result of `process_and_add_columns` when validation passes: the stats
dictionary, the augmented rows, and whether the output CSV was written
(the early return on "no date data" skips the write). -/
structure ProcResult where
  stats : Summary
  outRows : List (List (List Char))
  wroteCsv : Bool
deriving DecidableEq, Repr

instance : Inhabited ProcResult := ⟨⟨default, [], false⟩⟩

/-- `str(n)` for the three appended columns. -/
def natStr (n : Nat) : List Char := (toString n).toList

/-- `process_and_add_columns`: validation gate, date filtering, per-row
completion counting and tier statistics, month-bucket aggregation, retention
of `_user_data_summary`, and the CSV write.  Returns `none` (Python `None`)
when `validate_all` fails.  The `continue`-based filtering loop is modelled
as a `filter`; the per-pair initialize-to-0-then-increment loops are modelled
by counting directly (`cumCount` / `monCount`), which yields the same final
dictionary since every qualifying learner's own (year, month) pair is always
among the discovered pairs. -/
def process_and_add_columns (headers : List (List Char))
    (rows : List (List (List Char)))
    (start_date_filter end_date_filter : Option Date) : Option ProcResult :=
  if validate_all headers = false then none
  else
    let vidIdx := video_chapter_indices headers
    let kept := rows.filter (keepRow start_date_filter end_date_filter)
    let users := kept.map (rowInfo vidIdx)
    let processedRows := kept.map fun row =>
      row ++ [natStr (count_completions vidIdx row).1,
              natStr (count_completions vidIdx row).2,
              natStr (calculate_progress_percentage
                (count_completions vidIdx row).1 (count_completions vidIdx row).2)]
    let stats0 : Summary := {
      total_users := rows.length   -- all enrolled rows, ignoring the filter
      started := (users.filter fun u => u.dateInfo.isSome).length
      started_with_completion := (users.filter fun u => u.has_started).length
      only_1_video := (users.filter fun u => decide (u.videos = 1)).length
      p25 := (users.filter fun u => decide (25 ≤ pctOf u)).length
      p50 := (users.filter fun u => decide (50 ≤ pctOf u)).length
      p75 := (users.filter fun u => decide (75 ≤ pctOf u)).length
      p100 := (users.filter fun u => decide (pctOf u = 100)).length
      cumulative := []
      monthly := []
      user_data_summary := none }
    -- discovered (year, month) pairs of all filtered rows with a date
    let pairs0 := (users.filterMap fun u => u.dateInfo).map fun d => (d.year, d.month)
    let sortedPairs := sortPairs pairs0.dedup
    -- retained per-learner list: (date, videos) for videos ≥ 1 with a date
    let qs : List (Date × Nat) := users.filterMap fun u =>
      match u.dateInfo with
      | some d => if 1 ≤ u.videos then some (d, u.videos) else none
      | none => none
    if sortedPairs.isEmpty then
      -- "No date data available": early return, no bucket keys, no retained
      -- list, and the output CSV is never written.
      some ⟨stats0, processedRows, false⟩
    else
      some ⟨{ stats0 with
                cumulative := sortedPairs.map fun p => (p, cumCount qs p),
                monthly := sortedPairs.map fun p => (p, monCount qs p),
                user_data_summary := some qs },
            processedRows, true⟩

/-! ## `normalize_month_columns` -/

/-- The union of `(year, month)` bucket keys harvested from the cumulative
columns of every stats dict (the `all_year_months` set). -/
def unionPairs (l : List Summary) : List (Nat × Nat) :=
  ((l.map fun st => st.cumulative.map fun pv => pv.1).flatten).dedup

/-- `stats[key]` with default 0 — the "initialize if missing" step (first
match wins, which agrees with the dict since generated keys are unique). -/
def lookupD : List ((Nat × Nat) × Nat) → (Nat × Nat) → Nat
  | [], _ => 0
  | (k, v) :: rest, p => if k = p then v else lookupD rest p

/-- The per-stats body of `normalize_month_columns`: for every bucket of the
(sorted) union, keep/initialize the existing value when the retained list is
empty, else recompute from the retained list; finally delete
`_user_data_summary`.  Inside `normalize_month_columns` every summary's own
bucket keys are members of the union (the union is harvested from these very
summaries), so rebuilding the association lists over the union is exactly the
Python dict after the loop. -/
def normalizeOne (yms : List (Nat × Nat)) (st : Summary) : Summary :=
  let uds := st.user_data_summary.getD []
  { st with
    cumulative := yms.map fun p =>
      (p, if uds.isEmpty then lookupD st.cumulative p else cumCount uds p),
    monthly := yms.map fun p =>
      (p, if uds.isEmpty then lookupD st.monthly p else monCount uds p),
    user_data_summary := none }

/-- `normalize_month_columns`: harvest the union of bucket keys; if none exist
return unchanged; else rewrite every stats dict over the sorted union. -/
def normalize_month_columns (all_stats : List Summary) : List Summary :=
  let yms := unionPairs all_stats
  if yms.isEmpty then all_stats
  else all_stats.map (normalizeOne (sortPairs yms))

/-- Sum of a summary's monthly bucket counters. -/
def sumMonthly (st : Summary) : Nat := (st.monthly.map fun pv => pv.2).sum

/-- Cumulative counters are monotone along chronologically ordered keys. -/
def MonotoneCum (st : Summary) : Prop :=
  ∀ p q a b, (p, a) ∈ st.cumulative → (q, b) ∈ st.cumulative →
    pairLe p q = true → a ≤ b

/-- A summary that arose as the stats record of some processed dataset. -/
def FromProcess (st : Summary) : Prop :=
  ∃ hd r f1 f2 pr, process_and_add_columns hd r f1 f2 = some pr ∧ st = pr.stats

/-- The dataset's count of filter-passing learner rows with ≥ 1 completed
video and a parseable start date. -/
def qualLearnerCount (hd : List (List Char)) (rows : List (List (List Char)))
    (f1 f2 : Option Date) : Nat :=
  ((rows.filter (keepRow f1 f2)).filter fun row =>
    decide (1 ≤ (count_completions (video_chapter_indices hd) row).1) &&
      (rowDate row).isSome).length

/-! ## Concrete test fixtures (a minimal schema-valid dataset) -/

/-- A chapter header with a 24-character alphanumeric identifier. -/
def chapHeader : List Char := "Ch - abcdefghijklmnopqrstuvwx".toList

/-- A schema-valid header row: pillar marker at 17 (also a chapter column),
`"Quiz 1"` at 41, `"Quiz 2"` at 72, and chapter columns at 18..53 except 41 —
together exactly 35 chapter columns inside 17..69. -/
def testHeaders : List (List Char) :=
  (List.range 73).map fun i =>
    if i = 17 then "Pillar".toList
    else if i = 41 then "Quiz 1".toList
    else if i = 72 then "Quiz 2".toList
    else if 18 ≤ i ∧ i ≤ 53 then chapHeader
    else []

example : validate_all testHeaders = true := by decide

/-- A learner row: start date at column 12, one completed chapter (column 18). -/
def rowOneVideo (dateStr : String) : List (List Char) :=
  (List.range 73).map fun i =>
    if i = 12 then dateStr.toList
    else if i = 18 then "Completed".toList
    else []

/-- A learner row with every chapter and both quizzes completed. -/
def rowAllDone (dateStr : String) : List (List Char) :=
  (List.range 73).map fun i =>
    if i = 12 then dateStr.toList
    else if (18 ≤ i ∧ i ≤ 53) ∨ i = 72 then "Completed".toList
    else []

/-- A row with no parseable start date and nothing completed. -/
def rowBlank : List (List Char) :=
  (List.range 73).map fun i => if i = 12 then "Not Started".toList else []

example : (video_chapter_indices testHeaders).length = 35 := by decide
example : (count_completions (video_chapter_indices testHeaders) (rowAllDone "06/11/25")) = (35, 2) := by decide
example : (count_completions (video_chapter_indices testHeaders) (rowOneVideo "06/11/25")) = (1, 0) := by decide
example : rowDate (rowOneVideo "15/11/25") = some ⟨2025, 11, 15⟩ := by decide

/-! ## Helper lemmas: sorting, counting, dates -/

theorem insertPair_perm (p : Nat × Nat) (l : List (Nat × Nat)) :
    (insertPair p l).Perm (p :: l) := by
  induction l with
  | nil => simp [insertPair]
  | cons q rest ih =>
    simp only [insertPair]
    split
    · exact List.Perm.refl _
    · exact (List.Perm.cons q ih).trans (List.Perm.swap p q rest)

theorem sortPairs_perm (l : List (Nat × Nat)) : (sortPairs l).Perm l := by
  induction l with
  | nil => simp [sortPairs]
  | cons p rest ih =>
    simpa [sortPairs] using (insertPair_perm p (sortPairs rest)).trans (ih.cons p)

theorem mem_sortPairs {a : Nat × Nat} {l : List (Nat × Nat)} :
    a ∈ sortPairs l ↔ a ∈ l :=
  (sortPairs_perm l).mem_iff

theorem nodup_sortPairs {l : List (Nat × Nat)} (h : l.Nodup) :
    (sortPairs l).Nodup :=
  ((sortPairs_perm l).symm.nodup h)

theorem sortPairs_eq_nil {l : List (Nat × Nat)} :
    sortPairs l = [] ↔ l = [] := by
  constructor
  · intro h
    have hp := sortPairs_perm l
    rw [h] at hp
    exact hp.symm.eq_nil
  · intro h; simp [h, sortPairs]

/-- `monthEnd` is monotone along chronological bucket order: a start date on
or before the end of an earlier bucket is on or before the end of any later
bucket. -/
theorem dateLe_monthEnd_mono {p q : Nat × Nat} {d : Date}
    (hpq : pairLe p q = true) (hd : Date.le d (monthEnd p) = true) :
    Date.le d (monthEnd q) = true := by
  obtain ⟨py, pm⟩ := p
  obtain ⟨qy, qm⟩ := q
  simp only [pairLe, decide_eq_true_eq] at hpq
  simp only [Date.le, monthEnd, decide_eq_true_eq] at hd ⊢
  rcases hpq with hlt | ⟨heq, hle⟩
  · rcases hd with h | ⟨hy, _⟩
    · exact Or.inl (by omega)
    · exact Or.inl (by omega)
  · subst heq
    rcases hd with h | ⟨hy, hd2⟩
    · exact Or.inl h
    · rcases hd2 with hm | ⟨hm, hday⟩
      · exact Or.inr ⟨hy, Or.inl (by omega)⟩
      · by_cases hmq : pm = qm
        · subst hmq; exact Or.inr ⟨hy, Or.inr ⟨hm, hday⟩⟩
        · exact Or.inr ⟨hy, Or.inl (by omega)⟩

/-- Bucket counts of the cumulative family are monotone in the bucket. -/
theorem cumCount_mono (qs : List (Date × Nat)) {p q : Nat × Nat}
    (hpq : pairLe p q = true) : cumCount qs p ≤ cumCount qs q := by
  unfold cumCount
  rw [← List.countP_eq_length_filter, ← List.countP_eq_length_filter]
  exact List.countP_mono_left fun u _ hu => dateLe_monthEnd_mono hpq hu

/-- Membership in `map (fun p => (p, f p))` pins the value. -/
theorem mem_map_pair {β : Type} {f : (Nat × Nat) → β} {l : List (Nat × Nat)}
    {p : Nat × Nat} {a : β} (h : (p, a) ∈ l.map fun q => (q, f q)) :
    a = f p ∧ p ∈ l := by
  rcases List.mem_map.1 h with ⟨q, hq, hqa⟩
  cases hqa
  exact ⟨rfl, hq⟩

/-- The indicator sum of a key occurring exactly once (duplicate-free list). -/
theorem sum_if_eq_one {k : Nat × Nat} {pairs : List (Nat × Nat)}
    (hnd : pairs.Nodup) (hk : k ∈ pairs) :
    (pairs.map fun p => if k = p then (1 : Nat) else 0).sum = 1 := by
  induction pairs with
  | nil => cases hk
  | cons q rest ih =>
    rcases List.mem_cons.1 hk with h | h
    · subst h
      have hz : ∀ p ∈ rest, (if k = p then (1 : Nat) else 0) = 0 := by
        intro p hp
        have : k ≠ p := fun he => (List.nodup_cons.1 hnd).1 (he ▸ hp)
        simp [this]
      rw [List.map_cons, List.sum_cons, List.map_congr_left hz]
      simp
    · have hnd' := (List.nodup_cons.1 hnd).2
      have hkq : ¬ k = q := fun he => (List.nodup_cons.1 hnd).1 (he ▸ h)
      simp [hkq, ih hnd' h]

/-- Summing, over a duplicate-free key list that covers every learner's
(year, month), the per-key monthly counts gives back the learner count. -/
theorem sum_monCount {pairs : List (Nat × Nat)} {qs : List (Date × Nat)}
    (hnd : pairs.Nodup)
    (hcov : ∀ u ∈ qs, (u.1.year, u.1.month) ∈ pairs) :
    (pairs.map fun p => monCount qs p).sum = qs.length := by
  induction qs with
  | nil =>
    simp [monCount]
  | cons u rest ih =>
    have hcov' : ∀ v ∈ rest, (v.1.year, v.1.month) ∈ pairs := fun v hv =>
      hcov v (List.mem_cons_of_mem _ hv)
    have hu : (u.1.year, u.1.month) ∈ pairs := hcov u (List.mem_cons_self _ _)
    have expand : ∀ p : Nat × Nat, monCount (u :: rest) p =
        monCount rest p + (if (u.1.year, u.1.month) = p then 1 else 0) := by
      intro p
      obtain ⟨y0, m0⟩ := p
      simp only [monCount, List.filter_cons]
      by_cases hy : u.1.year = y0
      · by_cases hm : u.1.month = m0
        · simp [hy, hm, Nat.add_comm]
        · simp [hy, hm]
      · simp [hy]
    calc (pairs.map fun p => monCount (u :: rest) p).sum
        = (pairs.map fun p => monCount rest p
            + (if (u.1.year, u.1.month) = p then 1 else 0)).sum := by
          congr 1
          exact List.map_congr_left fun p _ => expand p
      _ = (pairs.map fun p => monCount rest p).sum
            + (pairs.map fun p => if (u.1.year, u.1.month) = p then 1 else 0).sum := by
          rw [← List.sum_map_add]
      _ = rest.length + 1 := by
          rw [ih hcov', sum_if_eq_one hnd hu]
      _ = (u :: rest).length := by simp [Nat.add_comm]

/-- Structure of every `process_and_add_columns` success: either the early
"no date data" return (no bucket keys, no retained list), or bucket lists
generated over the discovered duplicate-free pair list from the retained
per-learner list, with every learner's own (year, month) pair discovered. -/
theorem process_shape {hd : List (List Char)} {r : List (List (List Char))}
    {f1 f2 : Option Date} {pr : ProcResult}
    (h : process_and_add_columns hd r f1 f2 = some pr) :
    (pr.stats.cumulative = [] ∧ pr.stats.monthly = [] ∧
      pr.stats.user_data_summary = none) ∨
    ∃ pairs qs, pairs.Nodup ∧ pairs ≠ [] ∧
      pr.stats.cumulative = (pairs.map fun p => (p, cumCount qs p)) ∧
      pr.stats.monthly = (pairs.map fun p => (p, monCount qs p)) ∧
      pr.stats.user_data_summary = some qs ∧
      ∀ u ∈ qs, (u.1.year, u.1.month) ∈ pairs := by
  unfold process_and_add_columns at h
  split at h
  · exact absurd h (by simp)
  · dsimp only at h
    split at h
    · left
      cases h
      exact ⟨rfl, rfl, rfl⟩
    · right
      case isFalse hne =>
      cases h
      refine ⟨_, _, nodup_sortPairs (List.nodup_dedup _), ?_, rfl, rfl, rfl, ?_⟩
      · intro hc
        rw [hc] at hne
        simp at hne
      · intro u hu
        rcases List.mem_filterMap.1 hu with ⟨a, ha, hga⟩
        rcases hd' : a.dateInfo with _ | d
        · rw [hd'] at hga; simp at hga
        · rw [hd'] at hga
          by_cases hv : 1 ≤ a.videos
          · simp only [hv, if_pos] at hga
            cases hga
            apply mem_sortPairs.2
            apply List.mem_dedup.2
            exact List.mem_map.2 ⟨d, List.mem_filterMap.2 ⟨a, ha, hd'⟩, rfl⟩
          · simp [hv] at hga

/-- `filterMap` length as a `filter` length. -/
theorem length_filterMap_eq {α β : Type} (g : α → Option β) (l : List α) :
    (l.filterMap g).length = (l.filter fun a => (g a).isSome).length := by
  induction l with
  | nil => rfl
  | cons a rest ih =>
    rcases hga : g a with _ | b <;>
      simp [List.filterMap_cons, List.filter_cons, hga, ih]

/-- A list whose members all fail a predicate drops nothing under `dropWhile`… -/
theorem dropWhile_eq_self_of {α : Type} {p : α → Bool} {l : List α}
    (h : ∀ c ∈ l, p c = false) : l.dropWhile p = l := by
  cases l with
  | nil => rfl
  | cons c rest => simp [List.dropWhile_cons, h c (List.mem_cons_self _ _)]

/-- `strip()` of a string with no whitespace characters is itself. -/
theorem stripChars_eq_self {l : List Char} (h : ∀ c ∈ l, pyWS c = false) :
    stripChars l = l := by
  unfold stripChars
  rw [dropWhile_eq_self_of h,
      dropWhile_eq_self_of (fun c hc => h c (List.mem_reverse.1 hc)),
      List.reverse_reverse]

/-- `strip()` of a whitespace-only string is empty. -/
theorem stripChars_all_ws {l : List Char} (h : l.all pyWS = true) :
    stripChars l = [] := by
  unfold stripChars
  have h1 : l.dropWhile pyWS = [] :=
    List.dropWhile_eq_nil_iff.2 fun x hx => List.all_eq_true.1 h x hx
  rw [h1]
  rfl

/-- Digits are not whitespace. -/
theorem pyWS_false_of_digit {c : Char} (h : isDigitChar c = true) :
    pyWS c = false := by
  simp only [pyWS, Bool.or_eq_false_iff, decide_eq_false_iff_not]
  refine ⟨⟨⟨⟨⟨?_, ?_⟩, ?_⟩, ?_⟩, ?_⟩, ?_⟩ <;>
    intro he <;> rw [he] at h <;> exact absurd h (by decide)

/-- All-digit nonempty strings pass `digitsCore`. -/
theorem digitsCore_of_all : ∀ (l : List Char), l ≠ [] →
    l.all isDigitChar = true → digitsCore l = true := by
  intro l
  induction l with
  | nil => intro h; exact absurd rfl h
  | cons c rest ih =>
    intro _ hall
    rw [List.all_cons, Bool.and_eq_true] at hall
    cases rest with
    | nil => simpa [digitsCore] using hall.1
    | cons c2 rest2 =>
      have hc2 : isDigitChar c2 = true := by
        have := hall.2
        rw [List.all_cons, Bool.and_eq_true] at this
        exact this.1
      have h2 : ¬ c2 = '_' := fun he => by
        rw [he] at hc2; exact absurd hc2 (by decide)
      simp only [digitsCore, hall.1, Bool.true_and, if_neg h2]
      exact ih (by simp) hall.2

/-- `int()` of a nonempty all-digit string yields its value. -/
theorem pyInt_digits {p : List Char} (hne : p ≠ [])
    (hall : p.all isDigitChar = true) :
    pyInt p = some ((digitsVal p : Nat) : Int) := by
  have hdig : ∀ c ∈ p, isDigitChar c = true := List.all_eq_true.1 hall
  have hstrip : stripChars p = p :=
    stripChars_eq_self fun c hc => pyWS_false_of_digit (hdig c hc)
  unfold pyInt
  rw [hstrip]
  cases p with
  | nil => exact absurd rfl hne
  | cons c rest =>
    have hc : isDigitChar c = true := hdig c (List.mem_cons_self _ _)
    have hplus : ¬ c = '+' := fun he => by
      rw [he] at hc; exact absurd hc (by decide)
    have hminus : ¬ c = '-' := fun he => by
      rw [he] at hc; exact absurd hc (by decide)
    have hfil : (c :: rest).filter (fun x => x ≠ '_') = c :: rest := by
      refine List.filter_eq_self.2 fun a ha => ?_
      have : ¬ a = '_' := fun he => by
        have := hdig a ha
        rw [he] at this
        exact absurd this (by decide)
      simpa using this
    simp only [if_neg hplus, if_neg hminus,
      digitsCore_of_all _ (by simp) hall, if_pos, hfil]

/-- Strings without `'/'` split into a single part. -/
theorem splitSlash_no_slash {l : List Char} (h : '/' ∉ l) :
    splitSlash l = [l] := by
  induction l with
  | nil => rfl
  | cons c rest ih =>
    have hc : ¬ c = '/' := fun e => h (e ▸ List.mem_cons_self _ _)
    have hrest := ih fun hm => h (List.mem_cons_of_mem _ hm)
    simp [splitSlash, hc, hrest]

/-! ## Claim theorems -/

/-- C9: for every pair of counts, `calculate_progress_percentage` returns 100
iff videos ≥ 35 and quizzes ≥ 2; else 75 iff videos ≥ 26; else 50 iff
videos ≥ 18; else 25 iff videos ≥ 9; else 0 — the result is always one of
{0, 25, 50, 75, 100} and 100 implies videos ≥ 35 and quizzes ≥ 2. -/
theorem c9_progress_tier_thresholds :
    ∀ v q : Nat,
      (calculate_progress_percentage v q = 100 ↔ (35 ≤ v ∧ 2 ≤ q)) ∧
      (¬(35 ≤ v ∧ 2 ≤ q) → (calculate_progress_percentage v q = 75 ↔ 26 ≤ v)) ∧
      (¬(35 ≤ v ∧ 2 ≤ q) → ¬(26 ≤ v) →
        (calculate_progress_percentage v q = 50 ↔ 18 ≤ v)) ∧
      (¬(35 ≤ v ∧ 2 ≤ q) → ¬(26 ≤ v) → ¬(18 ≤ v) →
        (calculate_progress_percentage v q = 25 ↔ 9 ≤ v)) ∧
      (¬(35 ≤ v ∧ 2 ≤ q) → ¬(26 ≤ v) → ¬(18 ≤ v) → ¬(9 ≤ v) →
        calculate_progress_percentage v q = 0) ∧
      (calculate_progress_percentage v q = 0 ∨ calculate_progress_percentage v q = 25 ∨
        calculate_progress_percentage v q = 50 ∨ calculate_progress_percentage v q = 75 ∨
        calculate_progress_percentage v q = 100) ∧
      (calculate_progress_percentage v q = 100 → 35 ≤ v ∧ 2 ≤ q) := by
  intro v q
  unfold calculate_progress_percentage
  split_ifs <;> simp_all

/-- Witness for C9 at concrete tier inputs. -/
theorem c9_progress_tier_thresholds_witness :
    calculate_progress_percentage 35 2 = 100 ∧
    calculate_progress_percentage 27 0 = 75 :=
  ⟨(c9_progress_tier_thresholds 35 2).1.mpr (by decide),
   ((c9_progress_tier_thresholds 27 0).2.1 (by decide)).mpr (by decide)⟩

/-- C7: `parse_start_date` is total (date or none, never an exception); none
for empty/whitespace-only input, for the case-insensitive "not started"
sentinel, for "-"/"n/a"-style values, and for range-valid but impossible
dates such as "31/02/25". -/
theorem c7_parse_never_raises :
    (∀ s : String, parse_start_date s = none ∨ ∃ d, parse_start_date s = some d) ∧
    (∀ s : String, s.toList.all pyWS = true → parse_start_date s = none) ∧
    (∀ s : String, lowerChars (stripChars s.toList) = "not started".toList →
      parse_start_date s = none) ∧
    parse_start_date "-" = none ∧ parse_start_date "n/a" = none ∧
    parse_start_date "N/A" = none ∧ parse_start_date "31/02/25" = none := by
  refine ⟨?_, ?_, ?_, rfl, rfl, rfl, rfl⟩
  · intro s
    cases parse_start_date s with
    | none => exact Or.inl rfl
    | some d => exact Or.inr ⟨d, rfl⟩
  · intro s hs
    simp only [parse_start_date, parseStartDateChars, stripChars_all_ws hs]
    simp
  · intro s hs
    simp only [parse_start_date, parseStartDateChars]
    rw [if_pos hs]
    split <;> rfl

/-- Witness for C7 on whitespace-only and sentinel inputs. -/
theorem c7_parse_never_raises_witness :
    parse_start_date "  " = none ∧ parse_start_date " Not Started " = none :=
  ⟨c7_parse_never_raises.2.1 "  " (by decide),
   c7_parse_never_raises.2.2.1 " Not Started " (by decide)⟩

/-- A successful `datetime(...)` construction implies the primary branch's
month/day pre-check. -/
theorem mkDate_bounds {y m d : Int} {dt : Date} (h : mkDate y m d = some dt) :
    1 ≤ m ∧ m ≤ 12 ∧ 1 ≤ d ∧ d ≤ 31 := by
  unfold mkDate at h
  split at h
  · rename_i hc
    refine ⟨hc.2.2.1, hc.2.2.2.1, hc.2.2.2.2.1, ?_⟩
    have h6 := hc.2.2.2.2.2
    have h31 : daysInMonth y.toNat m.toNat ≤ 31 := by
      unfold daysInMonth
      split_ifs <;> omega
    omega
  · cases h

/-- Under a 3-part split the sentinel and emptiness gates of
`parseStartDateChars` cannot fire, so a successful primary parse is the
overall result. -/
theorem parse_primary_of_split {l p0 p1 p2 : List Char}
    (h0 : splitSlash (stripChars l) = [p0, p1, p2]) :
    ∀ dt : Date, primaryParse (stripChars l) = some dt →
      parseStartDateChars l = some dt := by
  intro dt hprim
  have hstrip_ne : stripChars l ≠ [] := by
    intro hc
    rw [hc] at h0
    simp [splitSlash] at h0
  have hl_ne : l ≠ [] := by
    intro hc
    rw [hc] at hstrip_ne
    exact hstrip_ne rfl
  have hsent : ¬ (lowerChars (stripChars l) = "not started".toList) := by
    intro hsl2
    have hnos : '/' ∉ stripChars l := by
      intro hmem
      have : '/' ∈ lowerChars (stripChars l) :=
        List.mem_map.2 ⟨'/', hmem, by decide⟩
      rw [hsl2] at this
      exact absurd this (by decide)
    rw [splitSlash_no_slash hnos] at h0
    simp at h0
  unfold parseStartDateChars
  rw [if_neg (by simp [hl_ne, List.isEmpty_iff, hstrip_ne]), if_neg hsent, hprim]

/-- C6: an input whose stripped text splits on `/` into exactly three numeric
parts is interpreted as `YYYY/MM/DD` when the first part has 4 characters
and otherwise as `DD/MM/YY` with the `year < 50 → +2000, else +1900`
expansion; `"06/11/25"` and `"2025/11/06"` both parse to 2025-11-06. -/
theorem c6_date_layout_rule :
    (∀ (l p0 p1 p2 : List Char),
      splitSlash (stripChars l) = [p0, p1, p2] →
      p0 ≠ [] → p0.all isDigitChar = true →
      p1 ≠ [] → p1.all isDigitChar = true →
      p2 ≠ [] → p2.all isDigitChar = true →
      ((p0.length = 4 →
        ∀ dt : Date,
          mkDate (digitsVal p0 : Nat) (digitsVal p1 : Nat) (digitsVal p2 : Nat) = some dt →
          parseStartDateChars l = some dt) ∧
      (p0.length ≠ 4 →
        ∀ dt : Date,
          mkDate (expand2 (digitsVal p2 : Nat)) (digitsVal p1 : Nat) (digitsVal p0 : Nat) = some dt →
          parseStartDateChars l = some dt))) ∧
    parse_start_date "06/11/25" = some ⟨2025, 11, 6⟩ ∧
    parse_start_date "2025/11/06" = some ⟨2025, 11, 6⟩ := by
  refine ⟨?_, rfl, rfl⟩
  intro l p0 p1 p2 h0 h0ne h0d h1ne h1d h2ne h2d
  constructor
  · intro hlen dt hmk
    refine parse_primary_of_split h0 dt ?_
    unfold primaryParse
    rw [h0]
    dsimp only
    rw [if_pos hlen, pyInt_digits h0ne h0d, pyInt_digits h1ne h1d,
        pyInt_digits h2ne h2d]
    dsimp only
    rw [if_pos (mkDate_bounds hmk)]
    exact hmk
  · intro hlen dt hmk
    refine parse_primary_of_split h0 dt ?_
    unfold primaryParse
    rw [h0]
    dsimp only
    rw [if_neg hlen, pyInt_digits h0ne h0d, pyInt_digits h1ne h1d,
        pyInt_digits h2ne h2d]
    dsimp only
    rw [if_pos (mkDate_bounds hmk)]
    exact hmk

/-- Witness for C6: both numeric layouts at concrete inputs. -/
theorem c6_date_layout_rule_witness :
    parseStartDateChars "7/8/31".toList = some ⟨2031, 8, 7⟩ ∧
    parseStartDateChars "0205/2/3".toList = some ⟨205, 2, 3⟩ := by
  constructor
  · exact ((c6_date_layout_rule.1 "7/8/31".toList ['7'] ['8'] ['3', '1']
      (by decide) (by decide) (by decide) (by decide) (by decide)
      (by decide) (by decide)).2 (by decide) ⟨2031, 8, 7⟩ (by decide))
  · exact ((c6_date_layout_rule.1 "0205/2/3".toList ['0', '2', '0', '5'] ['2'] ['3']
      (by decide) (by decide) (by decide) (by decide) (by decide)
      (by decide) (by decide)).1 (by decide) ⟨205, 2, 3⟩ (by decide))

/-- The chapter-identifier pattern characterized structurally. -/
theorem has_24char_id_iff {h : List Char} :
    has_24char_id h = true ↔
      ∃ pre suf, h = pre ++ ' ' :: '-' :: ' ' :: suf ∧ suf.length = 24 ∧
        suf.all isAlnumAscii = true := by
  unfold has_24char_id
  simp only [Bool.and_eq_true, decide_eq_true_eq]
  constructor
  · rintro ⟨⟨hlen, hall⟩, hsep⟩
    refine ⟨(h.reverse.drop 27).reverse, (h.reverse.take 24).reverse, ?_, ?_, ?_⟩
    · conv_lhs => rw [← List.reverse_reverse h]
      conv_lhs => rw [← List.take_append_drop 24 h.reverse]
      have hdrop : h.reverse.drop 24 = [' ', '-', ' '] ++ h.reverse.drop 27 := by
        conv_lhs => rw [← List.take_append_drop 3 (h.reverse.drop 24)]
        rw [hsep, List.drop_drop]
      rw [hdrop, List.reverse_append, List.reverse_append]
      simp
    · simp [hlen]
    · rw [List.all_eq_true] at hall ⊢
      intro c hc
      exact hall c (List.mem_reverse.1 hc)
  · rintro ⟨pre, suf, hh, hlen, hall⟩
    have hr : h.reverse = suf.reverse ++ ([' ', '-', ' '] ++ pre.reverse) := by
      rw [hh]
      have : (' ' :: '-' :: ' ' :: suf) = [' ', '-', ' '] ++ suf := rfl
      rw [this, List.reverse_append, List.reverse_append]
      simp
    have hlen' : suf.reverse.length = 24 := by simp [hlen]
    have htake : h.reverse.take 24 = suf.reverse := by
      rw [hr, ← hlen', List.take_left]
    have hdrop : h.reverse.drop 24 = [' ', '-', ' '] ++ pre.reverse := by
      rw [hr, ← hlen', List.drop_left]
    refine ⟨⟨by simp [htake, hlen'], ?_⟩, ?_⟩
    · rw [htake, List.all_eq_true] at *
      intro c hc
      exact hall c (List.mem_reverse.1 hc)
    · rw [hdrop]
      rfl

/-- C8: `validate_all` accepts iff the pillar column contains 'pillar'
case-insensitively, exactly 35 columns of the fixed range match the
chapter-identifier pattern (ending in " - " plus 24 alphanumerics) without
containing 'quiz', and both quiz columns contain 'quiz'; any violation makes
`process_and_add_columns` return a null result (no summary, no output rows). -/
theorem c8_schema_validation_gate :
    (∀ h : List Char, has_24char_id h = true ↔
      ∃ pre suf, h = pre ++ ' ' :: '-' :: ' ' :: suf ∧ suf.length = 24 ∧
        suf.all isAlnumAscii = true) ∧
    (∀ headers : List (List Char), validate_all headers = true ↔
      (COL_R < headers.length ∧
       containsSub "pillar".toList (lowerChars (headers.getD COL_R [])) = true ∧
       (video_chapter_indices headers).length = 35 ∧
       COL_AP < headers.length ∧
       containsSub "quiz".toList (lowerChars (headers.getD COL_AP [])) = true ∧
       COL_BU < headers.length ∧
       containsSub "quiz".toList (lowerChars (headers.getD COL_BU [])) = true)) ∧
    (∀ (headers : List (List Char)) (rows : List (List (List Char)))
       (f1 f2 : Option Date), validate_all headers = false →
       process_and_add_columns headers rows f1 f2 = none) := by
  refine ⟨fun h => has_24char_id_iff, ?_, ?_⟩
  · intro headers
    unfold validate_all
    simp only [Bool.and_eq_true, decide_eq_true_eq]
    constructor
    · rintro ⟨⟨⟨⟨hr, hp⟩, hn⟩, hap, hq1⟩, hbu, hq2⟩
      exact ⟨hr, hp, by simpa using hn, hap, hq1, hbu, hq2⟩
    · rintro ⟨hr, hp, hn, hap, hq1, hbu, hq2⟩
      exact ⟨⟨⟨⟨hr, hp⟩, by simpa using hn⟩, hap, hq1⟩, hbu, hq2⟩
  · intro headers rows f1 f2 hval
    unfold process_and_add_columns
    rw [if_pos hval]

/-- Witness for C8: an invalid header is rejected with a null result, a valid
fixture is accepted. -/
theorem c8_schema_validation_gate_witness :
    validate_all [] = false ∧
    process_and_add_columns [] [] none none = none ∧
    validate_all testHeaders = true :=
  ⟨by decide, c8_schema_validation_gate.2.2 [] [] none none (by decide),
   (c8_schema_validation_gate.2.1 testHeaders).mpr (by decide)⟩

/-- `calculate_progress_percentage` only takes the five tier values. -/
theorem pct_cases (v q : Nat) :
    calculate_progress_percentage v q = 0 ∨ calculate_progress_percentage v q = 25 ∨
    calculate_progress_percentage v q = 50 ∨ calculate_progress_percentage v q = 75 ∨
    calculate_progress_percentage v q = 100 := by
  unfold calculate_progress_percentage
  split_ifs <;> simp

/-- `pct_cases` restated on the per-row record. -/
theorem pctOf_cases (u : RowInfo) :
    pctOf u = 0 ∨ pctOf u = 25 ∨ pctOf u = 50 ∨ pctOf u = 75 ∨ pctOf u = 100 :=
  pct_cases u.videos u.quizzes

/-- Each `progress_pct >= t` tier counter splits into the exact-tier counts at
or above its threshold. -/
theorem tier_counts_split (users : List RowInfo) :
    ((users.filter fun u => decide (25 ≤ pctOf u)).length =
      (users.filter fun u => decide (pctOf u = 25)).length +
      (users.filter fun u => decide (pctOf u = 50)).length +
      (users.filter fun u => decide (pctOf u = 75)).length +
      (users.filter fun u => decide (pctOf u = 100)).length) ∧
    ((users.filter fun u => decide (50 ≤ pctOf u)).length =
      (users.filter fun u => decide (pctOf u = 50)).length +
      (users.filter fun u => decide (pctOf u = 75)).length +
      (users.filter fun u => decide (pctOf u = 100)).length) ∧
    ((users.filter fun u => decide (75 ≤ pctOf u)).length =
      (users.filter fun u => decide (pctOf u = 75)).length +
      (users.filter fun u => decide (pctOf u = 100)).length) := by
  induction users with
  | nil => simp
  | cons u rest ih =>
    obtain ⟨ih1, ih2, ih3⟩ := ih
    rcases pctOf_cases u with h | h | h | h | h <;>
      simp only [List.filter_cons, h] <;>
      norm_num <;> omega

/-- C2 counterexample: the row completing all 35 chapters and both quizzes is
at tier 100 yet is also counted in the 25/50/75 counters — the per-tier
counts are not mutually exclusive. -/
theorem c2_counterexample_tiers_not_exclusive :
    count_completions (video_chapter_indices testHeaders) (rowAllDone "06/11/25") = (35, 2) ∧
    calculate_progress_percentage 35 2 = 100 ∧
    (process_and_add_columns testHeaders [rowAllDone "06/11/25"] none none).map
        (fun pr => (pr.stats.p25, pr.stats.p50, pr.stats.p75, pr.stats.p100))
      = some (1, 1, 1, 1) ∧
    ¬ ((process_and_add_columns testHeaders [rowAllDone "06/11/25"] none none).map
        (fun pr => pr.stats.p25) = some 0) := by
  exact ⟨by decide, by decide, by decide, by decide⟩

/-- C2 amended: the per-tier counters are cumulative threshold counts — a row
is counted in every tier at or below its own: `25_percent` counts rows of
exact tier 25, 50, 75 or 100; `50_percent` those of 50, 75 or 100;
`75_percent` those of 75 or 100; `100_percent` exactly tier 100. -/
theorem c2_amended_tier_counts_cumulative :
    ∀ (hd : List (List Char)) (r : List (List (List Char))) (f1 f2 : Option Date)
      (pr : ProcResult), process_and_add_columns hd r f1 f2 = some pr →
      ∀ users : List RowInfo,
        users = (r.filter (keepRow f1 f2)).map (rowInfo (video_chapter_indices hd)) →
        (pr.stats.p25 =
            (users.filter fun u => decide (pctOf u = 25)).length +
            (users.filter fun u => decide (pctOf u = 50)).length +
            (users.filter fun u => decide (pctOf u = 75)).length +
            (users.filter fun u => decide (pctOf u = 100)).length ∧
         pr.stats.p50 =
            (users.filter fun u => decide (pctOf u = 50)).length +
            (users.filter fun u => decide (pctOf u = 75)).length +
            (users.filter fun u => decide (pctOf u = 100)).length ∧
         pr.stats.p75 =
            (users.filter fun u => decide (pctOf u = 75)).length +
            (users.filter fun u => decide (pctOf u = 100)).length ∧
         pr.stats.p100 = (users.filter fun u => decide (pctOf u = 100)).length) := by
  intro hd r f1 f2 pr h users husers
  subst husers
  unfold process_and_add_columns at h
  split at h
  · exact absurd h (by simp)
  · dsimp only at h
    split at h <;> cases h <;>
      exact ⟨(tier_counts_split _).1, (tier_counts_split _).2.1,
             (tier_counts_split _).2.2, rfl⟩

/-- Witness for the amended C2. -/
theorem c2_amended_tier_counts_cumulative_witness :
    ((process_and_add_columns testHeaders [rowAllDone "06/11/25"] none none).getD
        default).stats.p100 = 1 := by
  have h := c2_amended_tier_counts_cumulative testHeaders [rowAllDone "06/11/25"] none none
    ((process_and_add_columns testHeaders [rowAllDone "06/11/25"] none none).getD default)
    (by decide) _ rfl
  rw [h.2.2.2]
  decide

/-- A kept row under an active two-sided filter has a parseable date. -/
theorem keepRow_isSome {d1 d2 : Date} {row : List (List Char)}
    (h : keepRow (some d1) (some d2) row = true) : (rowDate row).isSome = true := by
  unfold keepRow at h
  rcases hr : rowDate row with _ | d
  · rw [hr] at h; cases h
  · rfl

/-- Association lists whose values are all zero look up to zero. -/
theorem lookupD_zero {al : List ((Nat × Nat) × Nat)} (h : ∀ pv ∈ al, pv.2 = 0)
    (p : Nat × Nat) : lookupD al p = 0 := by
  induction al with
  | nil => rfl
  | cons kv rest ih =>
    obtain ⟨k, v⟩ := kv
    unfold lookupD
    by_cases hk : k = p
    · rw [if_pos hk]
      exact h (k, v) (List.mem_cons_self _ _)
    · rw [if_neg hk]
      exact ih fun pv hpv => h pv (List.mem_cons_of_mem _ hpv)

/-- A bucket key of any summary of the batch is in the harvested union. -/
theorem mem_unionPairs_of_cumulative {l : List Summary} {st : Summary}
    (hst : st ∈ l) {p : Nat × Nat} {v : Nat} (hp : (p, v) ∈ st.cumulative) :
    p ∈ unionPairs l := by
  unfold unionPairs
  refine List.mem_dedup.2 (List.mem_flatten.2 ⟨st.cumulative.map fun pv => pv.1, ?_, ?_⟩)
  · exact List.mem_map.2 ⟨st, hst, rfl⟩
  · exact List.mem_map.2 ⟨(p, v), hp, rfl⟩

/-- The retained list's length equals the row-level qualifying count. -/
theorem length_qs_eq (vidIdx : List Nat) (kept : List (List (List Char))) :
    ((kept.map (rowInfo vidIdx)).filterMap fun u =>
       (match u.dateInfo with
        | some d => if 1 ≤ u.videos then some (d, u.videos) else none
        | none => none)).length
    = (kept.filter fun row =>
        decide (1 ≤ (count_completions vidIdx row).1) && (rowDate row).isSome).length := by
  rw [length_filterMap_eq]
  have hcongr : ∀ u : RowInfo,
      ((match u.dateInfo with
        | some d => if 1 ≤ u.videos then some (d, u.videos) else none
        | none => (none : Option (Date × Nat))).isSome)
      = (decide (1 ≤ u.videos) && u.dateInfo.isSome) := by
    intro u
    rcases hu : u.dateInfo with _ | d
    · simp
    · by_cases hv : 1 ≤ u.videos <;> simp [hv]
  rw [List.filter_congr fun u _ => hcongr u, List.filter_map]
  simp only [Function.comp, List.length_map]
  rfl

/-- `sumMonthly` of a processed summary equals its retained-list length. -/
theorem process_sum_eq_uds {hd : List (List Char)} {r : List (List (List Char))}
    {f1 f2 : Option Date} {pr : ProcResult}
    (h : process_and_add_columns hd r f1 f2 = some pr) :
    sumMonthly pr.stats = (pr.stats.user_data_summary.getD []).length := by
  rcases process_shape h with ⟨_, hm, hu⟩ | ⟨pairs, qs, hnd, _, _, hm, hu, hcov⟩
  · unfold sumMonthly
    rw [hm, hu]
    rfl
  · unfold sumMonthly
    rw [hm, hu, List.map_map]
    exact sum_monCount hnd hcov

/-- Cumulative counters of a processed summary are monotone. -/
theorem process_monotone {hd : List (List Char)} {r : List (List (List Char))}
    {f1 f2 : Option Date} {pr : ProcResult}
    (h : process_and_add_columns hd r f1 f2 = some pr) :
    MonotoneCum pr.stats := by
  rcases process_shape h with ⟨hc, _, _⟩ | ⟨pairs, qs, _, _, hc, _, _, _⟩
  · intro p q a b hp hq hpq
    rw [hc] at hp
    cases hp
  · intro p q a b hp hq hpq
    rw [hc] at hp hq
    obtain ⟨ha, _⟩ := mem_map_pair hp
    obtain ⟨hb, _⟩ := mem_map_pair hq
    rw [ha, hb]
    exact cumCount_mono qs hpq

/-- The retained-list length of a processed summary equals the dataset's
qualifying-learner count. -/
theorem process_uds_eq_qual {hd : List (List Char)} {r : List (List (List Char))}
    {f1 f2 : Option Date} {pr : ProcResult}
    (h : process_and_add_columns hd r f1 f2 = some pr) :
    (pr.stats.user_data_summary.getD []).length = qualLearnerCount hd r f1 f2 := by
  unfold process_and_add_columns at h
  split at h
  · exact absurd h (by simp)
  · dsimp only at h
    split at h
    case isTrue hempty =>
      cases h
      have hnil : ((r.filter (keepRow f1 f2)).map (rowInfo (video_chapter_indices hd))
          |>.filterMap fun u => u.dateInfo) = [] := by
        have h1 := List.isEmpty_iff.1 hempty
        have h2 := sortPairs_eq_nil.1 h1
        have h3 : ((((r.filter (keepRow f1 f2)).map (rowInfo (video_chapter_indices hd))).filterMap
            fun u => u.dateInfo).map fun d => (d.year, d.month)) = [] := by
          rcases hx : (((r.filter (keepRow f1 f2)).map
              (rowInfo (video_chapter_indices hd))).filterMap fun u => u.dateInfo).map
              fun d => (d.year, d.month) with _ | ⟨p, rest⟩
          · exact hx
          · have : p ∈ ([] : List (Nat × Nat)) := by
              rw [← h2]
              exact List.mem_dedup.2 (hx ▸ List.mem_cons_self _ _)
            cases this
        simpa using h3
      unfold qualLearnerCount
      have : ((r.filter (keepRow f1 f2)).filter fun row =>
          decide (1 ≤ (count_completions (video_chapter_indices hd) row).1) &&
            (rowDate row).isSome) = [] := by
        rw [List.filter_eq_nil_iff]
        intro row hrow
        have hnone : (rowInfo (video_chapter_indices hd) row).dateInfo = none := by
          have := List.filterMap_eq_nil_iff.1 hnil
          exact this _ (List.mem_map.2 ⟨row, hrow, rfl⟩)
        have : (rowDate row).isSome = false := by
          have : rowDate row = none := hnone
          rw [this]; rfl
        simp [this]
      rw [this]
      rfl
    case isFalse hne =>
      cases h
      exact length_qs_eq _ _

/-- Filtering the mapped per-row records equals filtering the rows. -/
theorem length_filter_map_users (vidIdx : List Nat) (kept : List (List (List Char)))
    (p : RowInfo → Bool) :
    ((kept.map (rowInfo vidIdx)).filter p).length =
      (kept.filter fun row => p (rowInfo vidIdx row)).length := by
  rw [List.filter_map]
  simp only [List.length_map]
  rfl

/-- All scalar counters of a processed summary, expressed over the filtered
row list. -/
theorem process_counters {hd : List (List Char)} {r : List (List (List Char))}
    {f1 f2 : Option Date} {pr : ProcResult}
    (h : process_and_add_columns hd r f1 f2 = some pr) :
    pr.stats.total_users = r.length ∧
    pr.stats.started =
      ((r.filter (keepRow f1 f2)).filter fun row => (rowDate row).isSome).length ∧
    pr.stats.started_with_completion =
      ((r.filter (keepRow f1 f2)).filter fun row =>
        has_started (video_chapter_indices hd) row).length ∧
    pr.stats.only_1_video =
      ((r.filter (keepRow f1 f2)).filter fun row =>
        decide ((count_completions (video_chapter_indices hd) row).1 = 1)).length ∧
    pr.stats.p25 =
      ((r.filter (keepRow f1 f2)).filter fun row =>
        decide (25 ≤ calculate_progress_percentage
          (count_completions (video_chapter_indices hd) row).1
          (count_completions (video_chapter_indices hd) row).2)).length ∧
    pr.stats.p50 =
      ((r.filter (keepRow f1 f2)).filter fun row =>
        decide (50 ≤ calculate_progress_percentage
          (count_completions (video_chapter_indices hd) row).1
          (count_completions (video_chapter_indices hd) row).2)).length ∧
    pr.stats.p75 =
      ((r.filter (keepRow f1 f2)).filter fun row =>
        decide (75 ≤ calculate_progress_percentage
          (count_completions (video_chapter_indices hd) row).1
          (count_completions (video_chapter_indices hd) row).2)).length ∧
    pr.stats.p100 =
      ((r.filter (keepRow f1 f2)).filter fun row =>
        decide (calculate_progress_percentage
          (count_completions (video_chapter_indices hd) row).1
          (count_completions (video_chapter_indices hd) row).2 = 100)).length := by
  unfold process_and_add_columns at h
  split at h
  · exact absurd h (by simp)
  · dsimp only at h
    split at h <;> cases h <;>
      exact ⟨rfl, length_filter_map_users _ _ _, length_filter_map_users _ _ _,
        length_filter_map_users _ _ _, length_filter_map_users _ _ _,
        length_filter_map_users _ _ _, length_filter_map_users _ _ _,
        length_filter_map_users _ _ _⟩

/-- No parseable date among the per-row records, stated from a nil dedup. -/
theorem pairs_nil_no_dates {users : List RowInfo}
    (h : ((users.filterMap fun u => u.dateInfo).map fun d => (d.year, d.month)).dedup = []) :
    ∀ u ∈ users, u.dateInfo = none := by
  intro u hu
  rcases hdu : u.dateInfo with _ | d
  · rfl
  · exfalso
    have hmem : d ∈ users.filterMap fun u => u.dateInfo :=
      List.mem_filterMap.2 ⟨u, hu, hdu⟩
    have hp : (d.year, d.month) ∈ ((users.filterMap fun u => u.dateInfo).map
        fun d => (d.year, d.month)).dedup :=
      List.mem_dedup.2 (List.mem_map.2 ⟨d, hmem, rfl⟩)
    rw [h] at hp
    cases hp

/-- The converse: if no per-row record has a date, the dedup is nil. -/
theorem no_dates_pairs_nil {users : List RowInfo}
    (h : ∀ u ∈ users, u.dateInfo = none) :
    ((users.filterMap fun u => u.dateInfo).map fun d => (d.year, d.month)).dedup = [] := by
  have h2 : (users.filterMap fun u => u.dateInfo) = [] :=
    List.filterMap_eq_nil_iff.2 h
  rw [h2]
  rfl

/-- C10: when a validated dataset has no filter-surviving row with a parseable
start date, `process_and_add_columns` returns early — the summary carries no
month-bucket keys and no retained per-learner list, and the augmented CSV is
not written; with at least one dated surviving row the CSV is written. -/
theorem c10_no_date_early_return :
    ∀ (hd : List (List Char)) (rows : List (List (List Char)))
      (f1 f2 : Option Date) (pr : ProcResult),
      process_and_add_columns hd rows f1 f2 = some pr →
      ((∀ row ∈ rows.filter (keepRow f1 f2), rowDate row = none) →
        pr.stats.cumulative = [] ∧ pr.stats.monthly = [] ∧
        pr.stats.user_data_summary = none ∧ pr.wroteCsv = false) ∧
      ((∃ row ∈ rows.filter (keepRow f1 f2), (rowDate row).isSome = true) →
        pr.wroteCsv = true) := by
  intro hd rows f1 f2 pr h
  unfold process_and_add_columns at h
  split at h
  · exact absurd h (by simp)
  · dsimp only at h
    split at h
    case isTrue hempty =>
      cases h
      refine ⟨fun _ => ⟨rfl, rfl, rfl, rfl⟩, ?_⟩
      rintro ⟨row, hrow, hsome⟩
      exfalso
      have hnone := pairs_nil_no_dates (sortPairs_eq_nil.1 (List.isEmpty_iff.1 hempty))
        (rowInfo (video_chapter_indices hd) row) (List.mem_map.2 ⟨row, hrow, rfl⟩)
      have hnone2 : rowDate row = none := hnone
      rw [hnone2] at hsome
      cases hsome
    case isFalse hne =>
      cases h
      refine ⟨?_, fun _ => rfl⟩
      intro hall
      exfalso
      apply hne
      have hdn : ((((rows.filter (keepRow f1 f2)).map
          (rowInfo (video_chapter_indices hd))).filterMap fun u => u.dateInfo).map
          fun d => (d.year, d.month)).dedup = [] := by
        refine no_dates_pairs_nil fun u hu => ?_
        rcases List.mem_map.1 hu with ⟨row, hrow, hru⟩
        rw [← hru]
        exact hall row hrow
      rw [hdn]
      rfl

/-- Witness for C10: a validated dataset whose only row has no parseable date
returns early with empty buckets and no CSV write. -/
theorem c10_no_date_early_return_witness :
    ((process_and_add_columns testHeaders [rowBlank] none none).getD default).stats.cumulative = [] ∧
    ((process_and_add_columns testHeaders [rowBlank] none none).getD default).stats.monthly = [] ∧
    ((process_and_add_columns testHeaders [rowBlank] none none).getD default).stats.user_data_summary = none ∧
    ((process_and_add_columns testHeaders [rowBlank] none none).getD default).wroteCsv = false :=
  (c10_no_date_early_return testHeaders [rowBlank] none none
    ((process_and_add_columns testHeaders [rowBlank] none none).getD default)
    (by decide)).1 (by decide)

/-- The active two-sided filter, spelled out on the parsed date. -/
theorem keepRow_some_some (d1 d2 : Date) (row : List (List Char)) :
    keepRow (some d1) (some d2) row =
      (match rowDate row with
       | some d => Date.le d1 d && Date.le d d2
       | none => false) := by
  rcases hr : rowDate row with _ | d <;> simp [keepRow, hr]

/-- C5: with an active date-range filter, `total_users` stays the full
unfiltered row count while every other counter — started, content-based
started, exactly-one-video, tier counters, and the month-bucket totals — is
computed only from rows with a parseable start date inside the inclusive
range. -/
theorem c5_filter_asymmetry :
    ∀ (hd : List (List Char)) (rows : List (List (List Char))) (d1 d2 : Date)
      (pr : ProcResult),
      process_and_add_columns hd rows (some d1) (some d2) = some pr →
      ∀ keep : List (List (List Char)),
        keep = rows.filter (fun row =>
          match rowDate row with
          | some d => Date.le d1 d && Date.le d d2
          | none => false) →
        pr.stats.total_users = rows.length ∧
        pr.stats.started = keep.length ∧
        pr.stats.started_with_completion =
          (keep.filter fun row => has_started (video_chapter_indices hd) row).length ∧
        pr.stats.only_1_video =
          (keep.filter fun row =>
            decide ((count_completions (video_chapter_indices hd) row).1 = 1)).length ∧
        pr.stats.p25 =
          (keep.filter fun row =>
            decide (25 ≤ calculate_progress_percentage
              (count_completions (video_chapter_indices hd) row).1
              (count_completions (video_chapter_indices hd) row).2)).length ∧
        pr.stats.p50 =
          (keep.filter fun row =>
            decide (50 ≤ calculate_progress_percentage
              (count_completions (video_chapter_indices hd) row).1
              (count_completions (video_chapter_indices hd) row).2)).length ∧
        pr.stats.p75 =
          (keep.filter fun row =>
            decide (75 ≤ calculate_progress_percentage
              (count_completions (video_chapter_indices hd) row).1
              (count_completions (video_chapter_indices hd) row).2)).length ∧
        pr.stats.p100 =
          (keep.filter fun row =>
            decide (calculate_progress_percentage
              (count_completions (video_chapter_indices hd) row).1
              (count_completions (video_chapter_indices hd) row).2 = 100)).length ∧
        sumMonthly pr.stats =
          (keep.filter fun row =>
            decide (1 ≤ (count_completions (video_chapter_indices hd) row).1)).length := by
  intro hd rows d1 d2 pr h keep hkeep
  have hc := process_counters h
  have hsum := (process_sum_eq_uds h).trans (process_uds_eq_qual h)
  subst hkeep
  obtain ⟨ht, hs, hswc, h1v, h25, h50, h75, h100⟩ := hc
  have hfe : rows.filter (fun row =>
      match rowDate row with
      | some d => Date.le d1 d && Date.le d d2
      | none => false) = rows.filter (keepRow (some d1) (some d2)) :=
    (List.filter_congr fun row _ => keepRow_some_some d1 d2 row).symm
  rw [hfe]
  refine ⟨ht, ?_, hswc, h1v, h25, h50, h75, h100, ?_⟩
  · rw [hs]
    have hall : (rows.filter (keepRow (some d1) (some d2))).filter
        (fun row => (rowDate row).isSome)
        = rows.filter (keepRow (some d1) (some d2)) :=
      List.filter_eq_self.2 fun row hrow => keepRow_isSome (List.mem_filter.1 hrow).2
    rw [hall]
  · rw [hsum]
    unfold qualLearnerCount
    have hcg : (rows.filter (keepRow (some d1) (some d2))).filter
        (fun row => decide (1 ≤ (count_completions (video_chapter_indices hd) row).1) &&
          (rowDate row).isSome)
        = (rows.filter (keepRow (some d1) (some d2))).filter
        (fun row => decide (1 ≤ (count_completions (video_chapter_indices hd) row).1)) :=
      List.filter_congr fun row hrow => by
        rw [keepRow_isSome (List.mem_filter.1 hrow).2, Bool.and_true]
    rw [hcg]

/-- Witness for C5 at a concrete filtered dataset (one in-range dated row, one
out-of-range, one undated). -/
theorem c5_filter_asymmetry_witness :
    ((process_and_add_columns testHeaders
        [rowOneVideo "15/11/25", rowOneVideo "01/01/20", rowBlank]
        (some ⟨2025, 1, 1⟩) (some ⟨2025, 12, 31⟩)).getD default).stats.total_users = 3 ∧
    ((process_and_add_columns testHeaders
        [rowOneVideo "15/11/25", rowOneVideo "01/01/20", rowBlank]
        (some ⟨2025, 1, 1⟩) (some ⟨2025, 12, 31⟩)).getD default).stats.started = 1 := by
  have h := c5_filter_asymmetry testHeaders
    [rowOneVideo "15/11/25", rowOneVideo "01/01/20", rowBlank]
    ⟨2025, 1, 1⟩ ⟨2025, 12, 31⟩
    ((process_and_add_columns testHeaders
        [rowOneVideo "15/11/25", rowOneVideo "01/01/20", rowBlank]
        (some ⟨2025, 1, 1⟩) (some ⟨2025, 12, 31⟩)).getD default)
    (by decide) _ rfl
  refine ⟨by rw [h.1]; decide, by rw [h.2.1]; decide⟩

/-- A processed summary whose retained list is empty has all-zero bucket
values. -/
theorem fromProcess_zero_values {st : Summary} (h : FromProcess st)
    (he : st.user_data_summary.getD [] = []) :
    (∀ pv ∈ st.cumulative, pv.2 = 0) ∧ (∀ pv ∈ st.monthly, pv.2 = 0) := by
  obtain ⟨hd, r, f1, f2, pr, hp, hst⟩ := h
  subst hst
  rcases process_shape hp with ⟨hc, hm, _⟩ | ⟨pairs, qs, _, _, hc, hm, hu, _⟩
  · rw [hc, hm]
    exact ⟨by simp, by simp⟩
  · rw [hu] at he
    have hqs : qs = [] := he
    subst hqs
    rw [hc, hm]
    constructor <;> intro pv hpv <;>
      (rcases List.mem_map.1 hpv with ⟨p, _, hpe⟩; rw [← hpe]; rfl)

/-- Bucket values of a normalized processed summary stay monotone. -/
theorem normalizeOne_monotone {st : Summary} (h : FromProcess st)
    (yms : List (Nat × Nat)) : MonotoneCum (normalizeOne yms st) := by
  intro p q a b hp hq hpq
  unfold normalizeOne at hp hq
  dsimp only at hp hq
  obtain ⟨ha, _⟩ := mem_map_pair hp
  obtain ⟨hb, _⟩ := mem_map_pair hq
  rw [ha, hb]
  cases he : (st.user_data_summary.getD []).isEmpty
  · simp only [he, Bool.false_eq_true, if_false]
    exact cumCount_mono _ hpq
  · simp only [he, if_true]
    have hz := (fromProcess_zero_values h (List.isEmpty_iff.1 he)).1
    rw [lookupD_zero hz p, lookupD_zero hz q]

/-- Normalized monthly buckets still sum to the retained-list length. -/
theorem normalizeOne_sum {l : List Summary} {st : Summary} (hst : st ∈ l)
    (h : FromProcess st) :
    sumMonthly (normalizeOne (sortPairs (unionPairs l)) st) =
      (st.user_data_summary.getD []).length := by
  unfold normalizeOne sumMonthly
  dsimp only
  rw [List.map_map]
  cases he : (st.user_data_summary.getD []).isEmpty
  · -- retained list nonempty: values are recomputed `monCount`s
    obtain ⟨hd, r, f1, f2, pr, hp, hste⟩ := h
    rcases process_shape hp with ⟨hc, hm, hu⟩ | ⟨pairs, qs, _, _, hc, hm, hu, hcov⟩
    · exfalso
      rw [hste, hu] at he
      simp at he
    · have hqs : st.user_data_summary.getD [] = qs := by rw [hste, hu]; rfl
      have hcov2 : ∀ u ∈ st.user_data_summary.getD [],
          (u.1.year, u.1.month) ∈ sortPairs (unionPairs l) := by
        intro u hu2
        rw [hqs] at hu2
        refine mem_sortPairs.2 (@mem_unionPairs_of_cumulative l st hst
          (u.1.year, u.1.month) (cumCount qs (u.1.year, u.1.month)) ?_)
        rw [hste, hc]
        exact List.mem_map.2 ⟨(u.1.year, u.1.month), hcov u hu2, rfl⟩
      simp only [Function.comp, Bool.false_eq_true, if_false]
      exact sum_monCount (nodup_sortPairs (List.nodup_dedup _)) hcov2
  · -- retained list empty: every looked-up value is zero
    have hz := (fromProcess_zero_values h (List.isEmpty_iff.1 he)).2
    have hred : ∀ p ∈ sortPairs (unionPairs l),
        ((fun pv => pv.2) ∘ fun p => (p,
          if (true : Bool) = true then lookupD st.monthly p
          else monCount (st.user_data_summary.getD []) p)) p = 0 := by
      intro p _
      show (if (true : Bool) = true then lookupD st.monthly p
        else monCount (st.user_data_summary.getD []) p) = 0
      rw [if_pos rfl]
      exact lookupD_zero hz p
    rw [List.map_congr_left hred, List.isEmpty_iff.1 he]
    simp

/-- C4: cumulative month-bucket counts are chronologically monotone and the
monthly counts sum to the qualifying-learner count, both straight out of
aggregation and after cross-dataset normalization. -/
theorem c4_bucket_invariants :
    (∀ (hd : List (List Char)) (r : List (List (List Char))) (f1 f2 : Option Date)
       (pr : ProcResult), process_and_add_columns hd r f1 f2 = some pr →
       MonotoneCum pr.stats ∧
       sumMonthly pr.stats = qualLearnerCount hd r f1 f2 ∧
       (pr.stats.user_data_summary.getD []).length = qualLearnerCount hd r f1 f2) ∧
    (∀ l : List Summary, (∀ st ∈ l, FromProcess st) →
       (normalize_month_columns l).length = l.length ∧
       (∀ st2 ∈ normalize_month_columns l, MonotoneCum st2) ∧
       (normalize_month_columns l).map sumMonthly =
         l.map fun st => (st.user_data_summary.getD []).length) := by
  constructor
  · intro hd r f1 f2 pr h
    exact ⟨process_monotone h,
      (process_sum_eq_uds h).trans (process_uds_eq_qual h),
      process_uds_eq_qual h⟩
  · intro l hl
    unfold normalize_month_columns
    dsimp only
    split
    case isTrue hemp =>
      refine ⟨rfl, ?_, ?_⟩
      · intro st2 hst2
        obtain ⟨hd, r, f1, f2, pr, hp, hste⟩ := hl st2 hst2
        subst hste
        exact process_monotone hp
      · refine List.map_congr_left fun st hst => ?_
        obtain ⟨hd, r, f1, f2, pr, hp, hste⟩ := hl st hst
        subst hste
        exact process_sum_eq_uds hp
    case isFalse hne =>
      refine ⟨List.length_map _ _, ?_, ?_⟩
      · intro st2 hst2
        rcases List.mem_map.1 hst2 with ⟨st, hst, hst2e⟩
        rw [← hst2e]
        exact normalizeOne_monotone (hl st hst) _
      · rw [List.map_map]
        exact List.map_congr_left fun st hst => normalizeOne_sum hst (hl st hst)

/-- Dataset A of the scenario fixtures (the summary computed for one learner
with one completed video starting 2025-11-15). -/
def statsNov : Summary :=
  ⟨1, 1, 1, 1, 0, 0, 0, 0, [((2025, 11), 1)], [((2025, 11), 1)],
    some [(⟨2025, 11, 15⟩, 1)]⟩

/-- Dataset B of the scenario fixtures (one learner, one completed video,
start date 2025-10-15 — nobody starts in November). -/
def statsOct : Summary :=
  ⟨1, 1, 1, 1, 0, 0, 0, 0, [((2025, 10), 1)], [((2025, 10), 1)],
    some [(⟨2025, 10, 15⟩, 1)]⟩

/-- The fixtures do come from `process_and_add_columns`. -/
theorem statsNovOct_fromProcess :
    ∀ st ∈ [statsNov, statsOct], FromProcess st := by
  intro st hst
  rcases List.mem_cons.1 hst with h1 | h1
  · exact ⟨testHeaders, [rowOneVideo "15/11/25"], none, none,
      (process_and_add_columns testHeaders [rowOneVideo "15/11/25"] none none).getD default,
      by decide, by rw [h1]; decide⟩
  · have h2 : st = statsOct := by simpa using h1
    exact ⟨testHeaders, [rowOneVideo "15/10/25"], none, none,
      (process_and_add_columns testHeaders [rowOneVideo "15/10/25"] none none).getD default,
      by decide, by rw [h2]; decide⟩

/-- Witness for C4 on the two-dataset fixture batch. -/
theorem c4_bucket_invariants_witness :
    (normalize_month_columns [statsNov, statsOct]).length = 2 ∧
    ((normalize_month_columns [statsNov, statsOct]).map sumMonthly =
      [statsNov, statsOct].map fun st => (st.user_data_summary.getD []).length) ∧
    sumMonthly ((process_and_add_columns testHeaders [rowOneVideo "15/11/25"] none
        none).getD default).stats
      = qualLearnerCount testHeaders [rowOneVideo "15/11/25"] none none := by
  have h2 := c4_bucket_invariants.2 [statsNov, statsOct] statsNovOct_fromProcess
  have h1 := (c4_bucket_invariants.1 testHeaders [rowOneVideo "15/11/25"] none none
    ((process_and_add_columns testHeaders [rowOneVideo "15/11/25"] none none).getD default)
    (by decide)).2.1
  exact ⟨h2.1, h2.2.2, h1⟩

/-- C3: after normalization every summary of the batch exposes exactly the
union of all observed bucket keys, for both counter families, and the
retained per-learner list has been removed everywhere. -/
theorem c3_normalized_bucket_keys :
    ∀ l : List Summary, (∀ st ∈ l, FromProcess st) →
      (normalize_month_columns l).length = l.length ∧
      ∀ st2 ∈ normalize_month_columns l,
        st2.user_data_summary = none ∧
        ∀ p : Nat × Nat,
          ((∃ v, (p, v) ∈ st2.cumulative) ↔ p ∈ unionPairs l) ∧
          ((∃ v, (p, v) ∈ st2.monthly) ↔ p ∈ unionPairs l) := by
  intro l hl
  unfold normalize_month_columns
  dsimp only
  split
  case isTrue hemp =>
    have hun : unionPairs l = [] := List.isEmpty_iff.1 hemp
    refine ⟨rfl, ?_⟩
    intro st2 hst2
    obtain ⟨hd, r, f1, f2, pr, hp, hste⟩ := hl st2 hst2
    rcases process_shape hp with ⟨hc, hm, hu⟩ | ⟨pairs, qs, _, hpne, hc, hm, hu, _⟩
    · subst hste
      refine ⟨hu, fun p => ?_⟩
      rw [hc, hm, hun]
      simp
    · exfalso
      rcases hpp : pairs with _ | ⟨p0, rest⟩
      · exact hpne hpp
      · have hmem : p0 ∈ unionPairs l := by
          refine @mem_unionPairs_of_cumulative l st2 hst2 p0 (cumCount qs p0) ?_
          rw [hste, hc, hpp]
          exact List.mem_map.2 ⟨p0, List.mem_cons_self _ _, rfl⟩
        rw [hun] at hmem
        cases hmem
  case isFalse hne =>
    refine ⟨List.length_map _ _, ?_⟩
    intro st2 hst2
    rcases List.mem_map.1 hst2 with ⟨st, hst, hste⟩
    subst hste
    refine ⟨rfl, fun p => ⟨⟨?_, ?_⟩, ⟨?_, ?_⟩⟩⟩
    · rintro ⟨v, hv⟩
      exact mem_sortPairs.1 (mem_map_pair hv).2
    · intro hp2
      exact ⟨_, List.mem_map.2 ⟨p, mem_sortPairs.2 hp2, rfl⟩⟩
    · rintro ⟨v, hv⟩
      exact mem_sortPairs.1 (mem_map_pair hv).2
    · intro hp2
      exact ⟨_, List.mem_map.2 ⟨p, mem_sortPairs.2 hp2, rfl⟩⟩

/-- Witness for C3 on the two-dataset fixture batch. -/
theorem c3_normalized_bucket_keys_witness :
    (normalize_month_columns [statsNov, statsOct]).length = 2 ∧
    ∀ st2 ∈ normalize_month_columns [statsNov, statsOct],
      st2.user_data_summary = none := by
  have h := c3_normalized_bucket_keys [statsNov, statsOct] statsNovOct_fromProcess
  exact ⟨h.1, fun st2 hst2 => (h.2 st2 hst2).1⟩

/-- No learner starting in the bucket month means a zero monthly count. -/
theorem monCount_zero {qs : List (Date × Nat)} {M : Nat × Nat}
    (h : ∀ u ∈ qs, ¬ ((u.1.year, u.1.month) = M)) : monCount qs M = 0 := by
  unfold monCount
  rw [List.length_eq_zero, List.filter_eq_nil_iff]
  intro u hu hb
  rw [Bool.and_eq_true, decide_eq_true_eq, decide_eq_true_eq] at hb
  refine h u hu ?_
  rw [hb.1, hb.2]

/-- C1 counterexample: dataset A has a November learner with one completed
video; dataset B's learner starts in October only.  After normalization B's
November counters exist, but its cumulative counter is 1, not 0 (B's October
learner started on or before November's end). -/
theorem c1_counterexample_cumulative_not_zero :
    statsNov.user_data_summary = some [(⟨2025, 11, 15⟩, 1)] ∧
    statsOct.user_data_summary = some [(⟨2025, 10, 15⟩, 1)] ∧
    statsOct.monthly = [((2025, 10), 1)] ∧
    (normalize_month_columns [statsNov, statsOct]).map
        (fun st => (lookupD st.cumulative (2025, 11), lookupD st.monthly (2025, 11)))
      = [(1, 1), (1, 0)] ∧
    ¬ (lookupD ((normalize_month_columns [statsNov, statsOct]).getD 1 default).cumulative
        (2025, 11) = 0) :=
  ⟨by decide, by decide, by decide, by decide, by decide⟩

/-- C1 amended: for any bucket M of the union, a summary with no retained
learner starting in M gets, after normalization, an existing monthly counter
equal to 0 and an existing cumulative counter equal to the number of its
retained learners whose start date is on or before M's month end (not
necessarily 0). -/
theorem c1_amended_normalizer_backfill :
    ∀ l : List Summary, (∀ st ∈ l, FromProcess st) →
      ∀ st ∈ l, ∀ M : Nat × Nat, M ∈ unionPairs l →
      (∀ u ∈ st.user_data_summary.getD [], ¬ ((u.1.year, u.1.month) = M)) →
      normalizeOne (sortPairs (unionPairs l)) st ∈ normalize_month_columns l ∧
      (M, 0) ∈ (normalizeOne (sortPairs (unionPairs l)) st).monthly ∧
      (M, cumCount (st.user_data_summary.getD []) M) ∈
        (normalizeOne (sortPairs (unionPairs l)) st).cumulative := by
  intro l hl st hst M hM hno
  have hne : ¬ ((unionPairs l).isEmpty = true) := by
    intro hemp
    rw [List.isEmpty_iff.1 hemp] at hM
    cases hM
  refine ⟨?_, ?_, ?_⟩
  · unfold normalize_month_columns
    dsimp only
    rw [if_neg hne]
    exact List.mem_map.2 ⟨st, hst, rfl⟩
  · have hval : (if (st.user_data_summary.getD []).isEmpty then lookupD st.monthly M
        else monCount (st.user_data_summary.getD []) M) = 0 := by
      cases he : (st.user_data_summary.getD []).isEmpty
      · rw [if_neg (by simp)]
        exact monCount_zero hno
      · rw [if_pos rfl]
        exact lookupD_zero
          (fromProcess_zero_values (hl st hst) (List.isEmpty_iff.1 he)).2 M
    unfold normalizeOne
    dsimp only
    refine List.mem_map.2 ⟨M, mem_sortPairs.2 hM, ?_⟩
    rw [hval]
  · have hval : (if (st.user_data_summary.getD []).isEmpty then lookupD st.cumulative M
        else cumCount (st.user_data_summary.getD []) M)
        = cumCount (st.user_data_summary.getD []) M := by
      cases he : (st.user_data_summary.getD []).isEmpty
      · rw [if_neg (by simp)]
      · rw [if_pos rfl, List.isEmpty_iff.1 he]
        rw [lookupD_zero
          (fromProcess_zero_values (hl st hst) (List.isEmpty_iff.1 he)).1 M]
        rfl
    unfold normalizeOne
    dsimp only
    refine List.mem_map.2 ⟨M, mem_sortPairs.2 hM, ?_⟩
    rw [hval]

/-- Witness for the amended C1 on the fixture batch (B = `statsOct` has no
November learner; November is in the union via A). -/
theorem c1_amended_normalizer_backfill_witness :
    ((2025, 11), 0) ∈
      (normalizeOne (sortPairs (unionPairs [statsNov, statsOct])) statsOct).monthly ∧
    ((2025, 11), cumCount (statsOct.user_data_summary.getD []) (2025, 11)) ∈
      (normalizeOne (sortPairs (unionPairs [statsNov, statsOct])) statsOct).cumulative := by
  have h := c1_amended_normalizer_backfill [statsNov, statsOct] statsNovOct_fromProcess
    statsOct (by decide) (2025, 11) (by decide) (by decide)
  exact ⟨h.2.1, h.2.2⟩
